import Mathlib

/-!
Shallow embedding of `src/analyzer/vid2score.py` (the per-object feature
extraction pipeline of VidObjectifier).

Python floats are modelled as real numbers.  The OpenCV / numpy primitives the
script calls (`cv2.cvtColor`, `cv2.Sobel`, `cv2.Laplacian`, `cv2.Canny`,
`cv2.findContours`, `cv2.contourArea`, `cv2.arcLength`, slicing a frame) are
external library code, not part of this repository; they are abstracted as a
structure `CV` of unspecified functions, constrained only by the shape facts
the pipeline relies on (an image filter returns one response per input pixel).
Everything downstream of those calls — the arithmetic of the estimators, the
guards, the track state, the record assembly, timestamps and the emission loop
— is translated directly from the source.
-/

/-- One 8-bit BGR pixel, as produced by the video decoder. -/
abbrev BGRPix := Fin 256 × Fin 256 × Fin 256

/-- A decoded image / region of interest: its pixels.  `np.ndarray.size == 0`
corresponds to the empty list. -/
abbrev BGRImage := List BGRPix

/-- One 8-bit HSV pixel as produced by `cv2.cvtColor(·, COLOR_BGR2HSV)`:
hue in `0..179`, saturation and value in `0..255`. -/
abbrev HSVPix := Fin 180 × Fin 256 × Fin 256

/-- An HSV image. -/
abbrev HSVImage := List HSVPix

/-- An 8-bit grayscale image. -/
abbrev GrayImage := List (Fin 256)

/-- A contour as returned by `cv2.findContours`: a list of integer points. -/
abbrev Contour := List (ℤ × ℤ)

/-- The external OpenCV primitives used by `vid2score.py`, abstracted.
The only facts assumed about them are that pixel-wise conversions and
filters return one output value per input pixel (true of `cvtColor`,
`Sobel` and `Laplacian`), which is exactly what the script's emptiness
guards rely on. -/
structure CV where
  cvtGray : BGRImage → GrayImage
  cvtHSV : BGRImage → HSVImage
  sobel : GrayImage → ℕ → ℕ → ℕ → List ℝ
  laplacian : GrayImage → List ℝ
  canny : GrayImage → ℝ → ℝ → GrayImage
  findContours : GrayImage → List Contour
  contourArea : Contour → ℝ
  arcLength : Contour → Bool → ℝ
  crop : BGRImage → ℤ → ℤ → ℤ → ℤ → BGRImage
  cvtGray_len : ∀ img, (cvtGray img).length = img.length
  cvtHSV_len : ∀ img, (cvtHSV img).length = img.length
  sobel_len : ∀ g dx dy k, (sobel g dx dy k).length = g.length
  laplacian_len : ∀ g, (laplacian g).length = g.length

/-- `np.mean` of a nonempty array.  (On an empty array `np.mean` has no
numeric value — it yields NaN; uses of `npMean` below all sit behind the
source's emptiness guards, see `npMeanOpt` for the unguarded case.) -/
noncomputable def npMean (l : List ℝ) : ℝ := l.sum / l.length

/-- `np.mean` with its domain made explicit: `none` models the NaN produced
on a zero-size array. -/
noncomputable def npMeanOpt (l : List ℝ) : Option ℝ :=
  if l = [] then none else some (npMean l)

/-- `np.ndarray.var()`: population variance. -/
noncomputable def npVar (l : List ℝ) : ℝ :=
  npMean (l.map fun x => (x - npMean l) ^ 2)

/-- `np.std`: population standard deviation. -/
noncomputable def npStd (l : List ℝ) : ℝ := Real.sqrt (npVar l)

/-- `np.clip(x, lo, hi) = np.minimum(hi, np.maximum(x, lo))`. -/
noncomputable def npClip (x lo hi : ℝ) : ℝ := min (max x lo) hi

/-- Python `max(l, key=f)` for a nonempty `l` (`none` on the empty list,
where Python raises): returns the first element whose key is maximal. -/
noncomputable def pyMaxBy {α : Type} (f : α → ℝ) : List α → Option α
  | [] => none
  | x :: xs => some (xs.foldl (fun best y => if f best < f y then y else best) x)

/-- Python `int(·)` on a float: truncation toward zero. -/
noncomputable def pyInt (x : ℝ) : ℤ := if 0 ≤ x then ⌊x⌋ else -⌊-x⌋

/-- Round-half-to-even to an integer, Python's (and IEEE's) tie-breaking rule
for `round`. -/
noncomputable def rndHalfEven (y : ℝ) : ℤ :=
  if Int.fract y < 1 / 2 then ⌊y⌋
  else if 1 / 2 < Int.fract y then ⌊y⌋ + 1
  else if Even ⌊y⌋ then ⌊y⌋ else ⌊y⌋ + 1

/-- Python `round(x, ndigits)` in exact real arithmetic. -/
noncomputable def pyRound (x : ℝ) (ndigits : ℕ) : ℝ :=
  (rndHalfEven (x * 10 ^ ndigits) : ℝ) / 10 ^ ndigits

/-- `glitch_meter` (vid2score.py lines 24-32): mean absolute horizontal Sobel
response, divided by 64 and clipped to `[0,1]`.  There is no emptiness guard
in the source; on a zero-pixel image the mean has no value (NaN), which the
`Option` return makes explicit. -/
noncomputable def glitch_meter (cv : CV) (gray : GrayImage) : Option ℝ :=
  (npMeanOpt ((cv.sobel gray 1 0 3).map fun x => |x|)).map fun m =>
    npClip (m / 64) 0 1

/-- `to_polar` (vid2score.py lines 35-45). -/
noncomputable def to_polar (cx cy area : ℝ) (W H : ℕ) : ℝ × ℝ × ℝ :=
  ((cx / W) * 360 - 180,
   (1 - cy / H) * 60 - 30,
   max 0.05 (1 - area / ((W : ℝ) * (H : ℝ))))

/-- `hsv_stats` (vid2score.py lines 48-57): `(0,0,0)` on an empty crop, else
mean hue doubled (OpenCV stores hue halved), mean saturation and value
normalized by 255. -/
noncomputable def hsv_stats (cv : CV) (bgr_roi : BGRImage) : ℝ × ℝ × ℝ :=
  if bgr_roi = [] then (0, 0, 0)
  else
    let hsv := cv.cvtHSV bgr_roi
    (npMean (hsv.map fun p => ((p.1 : ℕ) : ℝ)) * 2,
     npMean (hsv.map fun p => ((p.2.1 : ℕ) : ℝ)) / 255,
     npMean (hsv.map fun p => ((p.2.2 : ℕ) : ℝ)) / 255)

/-- `edge_density` (vid2score.py lines 60-65): `0` on an empty crop, else the
variance of the Laplacian response divided by 1000, clipped to `[0,1]`. -/
noncomputable def edge_density (cv : CV) (gray_roi : GrayImage) : ℝ :=
  if gray_roi = [] then 0
  else npClip (npVar (cv.laplacian gray_roi) / 1000) 0 1

/-- `shape_magic` (vid2score.py lines 68-117): Canny edges at thresholds
50/150, largest external contour by area (`max(cnts, key=cv2.contourArea)`;
`pyMaxBy` is `none` exactly on the empty contour list, merging the source's
`if not cnts` guard), compactness `4·π·area/peri²`, weighted by mean
brightness and by one minus hue standard deviation over 180, clipped. -/
noncomputable def shape_magic (cv : CV) (bgr_roi : BGRImage) : ℝ :=
  if bgr_roi = [] then 0
  else
    let gray := cv.cvtGray bgr_roi
    let edges := cv.canny gray 50 150
    let cnts := cv.findContours edges
    match pyMaxBy cv.contourArea cnts with
    | none => 0
    | some cnt =>
      let area := cv.contourArea cnt
      let peri := cv.arcLength cnt true
      if peri = 0 then 0
      else
        let compact := 4 * Real.pi * area / (peri * peri)
        let hsv := cv.cvtHSV bgr_roi
        let bright := npMean (hsv.map fun p => ((p.2.2 : ℕ) : ℝ)) / 255
        let hue_std := npStd (hsv.map fun p => ((p.1 : ℕ) : ℝ)) / 180
        npClip (compact * bright * (1 - hue_std)) 0 1

/-- The run configuration that reaches the per-frame loop of `main`
(vid2score.py lines 140-154): the stream rate, the frame dimensions and the
stream identifier.  (`model`, `imgsz` and `conf` only configure the external
detector and never reach the record arithmetic.) -/
structure Config where
  fps : ℝ
  W : ℕ
  H : ℕ
  stream_id : String

/-- One detection as yielded by the external tracker (`b` in the source):
`b.id` (absent for an untracked detection), `b.cls`, `b.conf` and the
corners of `b.xyxy[0]`. -/
structure YBox where
  id : Option ℤ
  cls : ℤ
  conf : ℝ
  x1 : ℝ
  y1 : ℝ
  x2 : ℝ
  y2 : ℝ

/-- One per-frame result `r` from `model.track(...)`: the decoded frame
(`r.orig_img`, possibly absent) and the detections (`r.boxes`, possibly
`None`). -/
structure YResult where
  orig_img : Option BGRImage
  boxes : Option (List YBox)

/-- One emitted row (vid2score.py lines 203-219), fields already rounded as
in the source. -/
structure Rec where
  t : ℝ
  stream : String
  oid : ℤ
  cls : ℤ
  az : ℝ
  el : ℝ
  dist : ℝ
  spd : ℝ
  conf : ℝ
  glitch : ℝ
  hue : ℝ
  sat : ℝ
  val : ℝ
  edge : ℝ
  shape : ℝ

/-- The speed computation (vid2score.py lines 186-191): `0.0` when the track
identity has no entry in `prev_center`, otherwise the norm of the normalized
center delta scaled by `fps`. -/
noncomputable def speedOf (fps : ℝ) (W H : ℕ) (pc : ℤ → Option (ℝ × ℝ))
    (oid : ℤ) (cx cy : ℝ) : ℝ :=
  match pc oid with
  | none => 0
  | some (px, py) =>
    let dx := (cx - px) / W
    let dy := (cy - py) / H
    Real.sqrt (dx * dx + dy * dy) * fps

/-- The body of the per-detection loop (vid2score.py lines 174-223) for one
detection: `none` and an unchanged `prev_center` when the detection has no
track id (line 175-176), otherwise the assembled record and the updated
`prev_center`. -/
noncomputable def processBox (cv : CV) (cfg : Config) (gval t : ℝ)
    (frame : Option BGRImage) (pc : ℤ → Option (ℝ × ℝ)) (b : YBox) :
    Option Rec × (ℤ → Option (ℝ × ℝ)) :=
  match b.id with
  | none => (none, pc)
  | some oid =>
    let cx := (b.x1 + b.x2) / 2
    let cy := (b.y1 + b.y2) / 2
    let area := max 1 ((b.x2 - b.x1) * (b.y2 - b.y1))
    let pol := to_polar cx cy area cfg.W cfg.H
    let spd := speedOf cfg.fps cfg.W cfg.H pc oid cx cy
    let pc2 := fun i => if i = oid then some (cx, cy) else pc i
    let x1i := pyInt (max 0 b.x1)
    let y1i := pyInt (max 0 b.y1)
    let x2i := pyInt (min (cfg.W : ℝ) b.x2)
    let y2i := pyInt (min (cfg.H : ℝ) b.y2)
    let roi := match frame with
      | some f => cv.crop f y1i y2i x1i x2i
      | none => []
    let hsv3 := hsv_stats cv roi
    let gray_roi := if roi = [] then ([] : GrayImage) else cv.cvtGray roi
    let edge := edge_density cv gray_roi
    let shape := shape_magic cv roi
    (some { t := pyRound t 3
            stream := cfg.stream_id
            oid := oid
            cls := b.cls
            az := pyRound pol.1 2
            el := pyRound pol.2.1 2
            dist := pyRound pol.2.2 3
            spd := pyRound spd 3
            conf := pyRound b.conf 3
            glitch := pyRound gval 3
            hue := pyRound hsv3.1 1
            sat := pyRound hsv3.2.1 3
            val := pyRound hsv3.2.2 3
            edge := pyRound edge 3
            shape := pyRound shape 3 }, pc2)

/-- The per-detection loop over one frame's detections, threading
`prev_center` left to right and collecting emitted records in order. -/
noncomputable def processBoxes (cv : CV) (cfg : Config) (gval t : ℝ)
    (frame : Option BGRImage) :
    (ℤ → Option (ℝ × ℝ)) → List YBox → (ℤ → Option (ℝ × ℝ)) × List Rec
  | pc, [] => (pc, [])
  | pc, b :: bs =>
    let r1 := processBox cv cfg gval t frame pc b
    let rest := processBoxes cv cfg gval t frame r1.2 bs
    (rest.1, r1.1.toList ++ rest.2)

/-- The loop-carried state of `main`: the timestamp accumulator `t` and the
`prev_center` map. -/
structure MainState where
  t : ℝ
  pc : ℤ → Option (ℝ × ℝ)

/-- One iteration of the frame loop (vid2score.py lines 157-223): advance the
timestamp by `1/fps`, compute the frame-level glitch value (`0.0` for an
absent frame; decoded frames are never zero-pixel, so `getD` never defaults),
then run the detection loop (skipped entirely when `r.boxes` is `None`).
Returns the new state and the records emitted for this frame, in order. -/
noncomputable def processFrame (cv : CV) (cfg : Config) (st : MainState)
    (r : YResult) : MainState × List Rec :=
  let t2 := st.t + 1 / cfg.fps
  let gval : ℝ := match r.orig_img with
    | none => 0
    | some f => (glitch_meter cv (cv.cvtGray f)).getD 0
  match r.boxes with
  | none => (⟨t2, st.pc⟩, [])
  | some bs =>
    let pr := processBoxes cv cfg gval t2 r.orig_img st.pc bs
    (⟨t2, pr.1⟩, pr.2)

/-- The whole frame loop over a (finite prefix of the) result sequence. -/
noncomputable def runFrames (cv : CV) (cfg : Config) :
    MainState → List YResult → MainState × List Rec
  | st, [] => (st, [])
  | st, r :: rs =>
    let p := processFrame cv cfg st r
    let rest := runFrames cv cfg p.1 rs
    (rest.1, p.2 ++ rest.2)

/-- The state at entry of the frame loop: `t = 0.0`, empty `prev_center`
(vid2score.py lines 147-148). -/
noncomputable def initState : MainState := ⟨0, fun _ => none⟩

/-- The externally observable outcome of a run: the emitted records and
whether the output sink was closed. -/
structure RunOut where
  recs : List Rec
  closed : Bool

/-- `main` after the output file is opened (vid2score.py lines 149-224).
`raiseAt = some k` models an exception raised while the frame loop asks the
external iterator for the `k`-th result (`0`-based) — e.g. a keyboard
interrupt or a decode failure — with `k ≥ frames.length` meaning no exception
occurs before exhaustion.  The source has no `try/finally` or `with` around
the loop, so by Python control flow `out.close()` on line 224 runs exactly
when the loop finishes without an exception. -/
noncomputable def main (cv : CV) (cfg : Config) (frames : List YResult)
    (raiseAt : Option ℕ) : RunOut :=
  match raiseAt with
  | none => ⟨(runFrames cv cfg initState frames).2, true⟩
  | some k =>
    if k < frames.length then
      ⟨(runFrames cv cfg initState (frames.take k)).2, false⟩
    else ⟨(runFrames cv cfg initState frames).2, true⟩

/-- A concrete instantiation of the abstract OpenCV primitives, used to
exercise the theorems below on closed inputs. -/
noncomputable def cvId : CV where
  cvtGray := fun img => img.map fun _ => 0
  cvtHSV := fun img => img.map fun _ => (⟨0, by norm_num⟩, 0, 0)
  sobel := fun g _ _ _ => g.map fun _ => 0
  laplacian := fun g => g.map fun _ => 0
  canny := fun g _ _ => g
  findContours := fun _ => []
  contourArea := fun _ => 0
  arcLength := fun _ _ => 0
  crop := fun img _ _ _ _ => img
  cvtGray_len := by intro img; simp
  cvtHSV_len := by intro img; simp
  sobel_len := by intro g dx dy k; simp
  laplacian_len := by intro g; simp

/-- A 100×100 stream at 10 fps. -/
noncomputable def cfg1 : Config := ⟨10, 100, 100, "camA"⟩

/-- Track 1, box centered at `(25, 50)`. -/
noncomputable def box1 : YBox := ⟨some 1, 0, 0.9, 20, 45, 30, 55⟩

/-- Track 1 one frame later, box centered at `(75, 50)`: the center moved by
`(W/2, 0)` pixels. -/
noncomputable def box2 : YBox := ⟨some 1, 0, 0.9, 70, 45, 80, 55⟩

/-- A detection without a track identity. -/
noncomputable def boxNoId : YBox := ⟨none, 0, 0.5, 0, 0, 10, 10⟩

/-- First synthetic frame result (no decoded image kept). -/
noncomputable def res1 : YResult := ⟨none, some [box1]⟩

/-- Second synthetic frame result. -/
noncomputable def res2 : YResult := ⟨none, some [box2]⟩

/-! ### Numeric helper lemmas -/

theorem npClip01_nonneg (x : ℝ) : 0 ≤ npClip x 0 1 :=
  le_min (le_max_right x 0) zero_le_one

theorem npClip01_le_one (x : ℝ) : npClip x 0 1 ≤ 1 :=
  min_le_right _ _

theorem npMean_nonneg (l : List ℝ) (h : ∀ x ∈ l, 0 ≤ x) : 0 ≤ npMean l :=
  div_nonneg (List.sum_nonneg h) (Nat.cast_nonneg _)

theorem npMean_le_of_le (l : List ℝ) (c : ℝ) (hc : 0 ≤ c)
    (h : ∀ x ∈ l, x ≤ c) : npMean l ≤ c := by
  rcases eq_or_ne l [] with hl | hl
  · simp [npMean, hl, hc]
  · have hlen : (0 : ℝ) < l.length := by
      have := List.length_pos.mpr hl
      exact_mod_cast this
    have hs : l.sum ≤ l.length • c := List.sum_le_card_nsmul l c h
    rw [nsmul_eq_mul] at hs
    rw [npMean, div_le_iff₀ hlen]
    linarith [hs]

theorem rndHalfEven_floor_le (y : ℝ) : ⌊y⌋ ≤ rndHalfEven y := by
  simp only [rndHalfEven]
  split_ifs <;> omega

theorem rndHalfEven_le_floor_add_one (y : ℝ) : rndHalfEven y ≤ ⌊y⌋ + 1 := by
  simp only [rndHalfEven]
  split_ifs <;> omega

theorem rndHalfEven_intCast (n : ℤ) : rndHalfEven (n : ℝ) = n := by
  simp [rndHalfEven, Int.fract_intCast]

theorem rndHalfEven_mono {y z : ℝ} (h : y ≤ z) :
    rndHalfEven y ≤ rndHalfEven z := by
  have hfl : ⌊y⌋ ≤ ⌊z⌋ := Int.floor_mono h
  rcases lt_or_eq_of_le hfl with hlt | hf
  · calc rndHalfEven y ≤ ⌊y⌋ + 1 := rndHalfEven_le_floor_add_one y
    _ ≤ ⌊z⌋ := by omega
    _ ≤ rndHalfEven z := rndHalfEven_floor_le z
  · have hfr : Int.fract y ≤ Int.fract z := by
      simp only [Int.fract]
      rw [hf]
      linarith
    simp only [rndHalfEven]
    rw [hf]
    split_ifs <;> first | omega | linarith

theorem rndHalfEven_one_le {y : ℝ} (h : 1 / 2 < y) : 1 ≤ rndHalfEven y := by
  have h0 : (0 : ℤ) ≤ ⌊y⌋ := Int.floor_nonneg.mpr (by linarith)
  have hsum : (⌊y⌋ : ℝ) + Int.fract y = y := Int.floor_add_fract y
  simp only [rndHalfEven]
  split_ifs with h1 h2 h3
  · have : (0 : ℝ) < (⌊y⌋ : ℝ) := by linarith
    have : (0 : ℤ) < ⌊y⌋ := by exact_mod_cast this
    omega
  · omega
  · have hf : Int.fract y = 1 / 2 := le_antisymm (not_lt.mp h2) (not_lt.mp h1)
    have : (0 : ℝ) < (⌊y⌋ : ℝ) := by rw [hf] at hsum; linarith
    have : (0 : ℤ) < ⌊y⌋ := by exact_mod_cast this
    omega
  · omega

theorem pyRound_mono {x y : ℝ} (n : ℕ) (h : x ≤ y) :
    pyRound x n ≤ pyRound y n := by
  have hp : (0 : ℝ) < 10 ^ n := by positivity
  have hm : x * 10 ^ n ≤ y * 10 ^ n :=
    mul_le_mul_of_nonneg_right h (le_of_lt hp)
  have := rndHalfEven_mono hm
  rw [pyRound, pyRound, div_le_div_iff₀ hp hp]
  have hcast : ((rndHalfEven (x * 10 ^ n) : ℤ) : ℝ) ≤
      ((rndHalfEven (y * 10 ^ n) : ℤ) : ℝ) := by exact_mod_cast this
  nlinarith [hcast, hp]

theorem pyRound_intCast (m : ℤ) (n : ℕ) : pyRound (m : ℝ) n = m := by
  have : (m : ℝ) * 10 ^ n = ((m * 10 ^ n : ℤ) : ℝ) := by push_cast; ring
  rw [pyRound, this, rndHalfEven_intCast]
  have hp : (10 : ℝ) ^ n ≠ 0 := by positivity
  push_cast
  field_simp

theorem pyRound_zero (n : ℕ) : pyRound 0 n = 0 := by
  simpa using pyRound_intCast 0 n

/-! ### List helper lemmas -/

theorem mem_of_mem_getLastQ {α : Type} {l : List α} {x : α}
    (hx : x ∈ l.getLast?) : x ∈ l := by
  obtain ⟨h, rfl⟩ := List.mem_getLast?_eq_getLast hx
  exact List.getLast_mem h

theorem mem_of_mem_headQ {α : Type} {l : List α} {x : α}
    (hx : x ∈ l.head?) : x ∈ l := by
  cases l with
  | nil => simp at hx
  | cons a as =>
    simp only [List.head?_cons, Option.mem_def, Option.some.injEq] at hx
    subst hx
    exact List.mem_cons_self _ _

theorem list_map_eq_replicate {α β : Type} (f : α → β) (c : β) (l : List α)
    (h : ∀ x ∈ l, f x = c) : l.map f = List.replicate l.length c := by
  induction l with
  | nil => simp
  | cons a l ih =>
    simp only [List.map_cons, List.length_cons, List.replicate_succ]
    exact List.cons_eq_cons.mpr ⟨h a (by simp), ih fun x hx => h x (by simp [hx])⟩

theorem pyFold_le {α : Type} (f : α → ℝ) :
    ∀ (xs : List α) (a : α),
      f a ≤ f (xs.foldl (fun best y => if f best < f y then y else best) a) := by
  intro xs
  induction xs with
  | nil => intro a; simp
  | cons y ys ih =>
    intro a
    simp only [List.foldl_cons]
    refine le_trans ?_ (ih (if f a < f y then y else a))
    split_ifs with h
    · exact le_of_lt h
    · exact le_refl _

theorem pyFold_mem_le {α : Type} (f : α → ℝ) :
    ∀ (xs : List α) (a c : α), c ∈ xs →
      f c ≤ f (xs.foldl (fun best y => if f best < f y then y else best) a) := by
  intro xs
  induction xs with
  | nil => intro a c hc; simp at hc
  | cons y ys ih =>
    intro a c hc
    simp only [List.foldl_cons]
    rcases List.mem_cons.mp hc with rfl | hc
    · refine le_trans ?_ (pyFold_le f ys _)
      split_ifs with h
      · exact le_refl _
      · exact not_lt.mp h
    · exact ih _ c hc

theorem pyMaxBy_le {α : Type} (f : α → ℝ) (l : List α) (m : α)
    (hm : pyMaxBy f l = some m) : ∀ c ∈ l, f c ≤ f m := by
  cases l with
  | nil => simp [pyMaxBy] at hm
  | cons x xs =>
    simp only [pyMaxBy, Option.some.injEq] at hm
    subst hm
    intro c hc
    rcases List.mem_cons.mp hc with rfl | hc
    · exact pyFold_le f xs c
    · exact pyFold_mem_le f xs x c hc

/-! ### Pipeline structural lemmas -/

theorem processBox_id_none (cv : CV) (cfg : Config) (gval t : ℝ)
    (frame : Option BGRImage) (pc : ℤ → Option (ℝ × ℝ)) (b : YBox)
    (hb : b.id = none) :
    processBox cv cfg gval t frame pc b = (none, pc) := by
  simp [processBox, hb]

theorem processBox_id_some_snd (cv : CV) (cfg : Config) (gval t : ℝ)
    (frame : Option BGRImage) (pc : ℤ → Option (ℝ × ℝ)) (b : YBox) (oid : ℤ)
    (hb : b.id = some oid) :
    (processBox cv cfg gval t frame pc b).2 =
      fun i => if i = oid then some ((b.x1 + b.x2) / 2, (b.y1 + b.y2) / 2)
               else pc i := by
  simp [processBox, hb]

theorem processBox_id_some_fst (cv : CV) (cfg : Config) (gval t : ℝ)
    (frame : Option BGRImage) (pc : ℤ → Option (ℝ × ℝ)) (b : YBox) (oid : ℤ)
    (hb : b.id = some oid) :
    ∃ rec, (processBox cv cfg gval t frame pc b).1 = some rec ∧
      rec.t = pyRound t 3 ∧ rec.glitch = pyRound gval 3 ∧ rec.oid = oid ∧
      rec.spd = pyRound
        (speedOf cfg.fps cfg.W cfg.H pc oid ((b.x1 + b.x2) / 2)
          ((b.y1 + b.y2) / 2)) 3 := by
  simp only [processBox, hb]
  exact ⟨_, rfl, rfl, rfl, rfl, rfl⟩

theorem processBoxes_mem (cv : CV) (cfg : Config) (gval t : ℝ)
    (frame : Option BGRImage) :
    ∀ (bs : List YBox) (pc : ℤ → Option (ℝ × ℝ)) (rec : Rec),
      rec ∈ (processBoxes cv cfg gval t frame pc bs).2 →
      rec.t = pyRound t 3 ∧ rec.glitch = pyRound gval 3 := by
  intro bs
  induction bs with
  | nil => intro pc rec h; simp [processBoxes] at h
  | cons b bs ih =>
    intro pc rec h
    simp only [processBoxes, List.mem_append] at h
    rcases h with h | h
    · rcases hb : b.id with _ | oid
      · rw [processBox_id_none cv cfg gval t frame pc b hb] at h
        simp at h
      · obtain ⟨r0, hr0, ht, hg, _, _⟩ :=
          processBox_id_some_fst cv cfg gval t frame pc b oid hb
        rw [hr0] at h
        simp only [Option.toList_some, List.mem_singleton] at h
        subst h
        exact ⟨ht, hg⟩
    · exact ih _ rec h

theorem processBoxes_map_oid (cv : CV) (cfg : Config) (gval t : ℝ)
    (frame : Option BGRImage) :
    ∀ (bs : List YBox) (pc : ℤ → Option (ℝ × ℝ)),
      ((processBoxes cv cfg gval t frame pc bs).2).map Rec.oid =
        bs.filterMap YBox.id := by
  intro bs
  induction bs with
  | nil => intro pc; simp [processBoxes]
  | cons b bs ih =>
    intro pc
    simp only [processBoxes, List.map_append, List.filterMap_cons]
    rcases hb : b.id with _ | oid
    · rw [processBox_id_none cv cfg gval t frame pc b hb]
      simp [ih]
    · obtain ⟨r0, hr0, _, _, hoid, _⟩ :=
        processBox_id_some_fst cv cfg gval t frame pc b oid hb
      rw [hr0]
      simp [hoid, ih]

theorem processBoxes_length (cv : CV) (cfg : Config) (gval t : ℝ)
    (frame : Option BGRImage) :
    ∀ (bs : List YBox) (pc : ℤ → Option (ℝ × ℝ)),
      ((processBoxes cv cfg gval t frame pc bs).2).length =
        (bs.filter fun b => b.id.isSome).length := by
  intro bs
  induction bs with
  | nil => intro pc; simp [processBoxes]
  | cons b bs ih =>
    intro pc
    simp only [processBoxes, List.length_append, List.filter_cons]
    rcases hb : b.id with _ | oid
    · rw [processBox_id_none cv cfg gval t frame pc b hb]
      simp [hb, ih]
    · obtain ⟨r0, hr0, _, _, _, _⟩ :=
        processBox_id_some_fst cv cfg gval t frame pc b oid hb
      rw [hr0]
      simp [hb, ih, Nat.add_comm]

theorem processFrame_fst_t (cv : CV) (cfg : Config) (st : MainState)
    (r : YResult) : (processFrame cv cfg st r).1.t = st.t + 1 / cfg.fps := by
  rcases hr : r.boxes with _ | bs <;> simp [processFrame, hr]

theorem processFrame_mem_t (cv : CV) (cfg : Config) (st : MainState)
    (r : YResult) :
    ∀ rec ∈ (processFrame cv cfg st r).2,
      rec.t = pyRound (st.t + 1 / cfg.fps) 3 := by
  intro rec h
  rcases hr : r.boxes with _ | bs
  · simp [processFrame, hr] at h
  · simp only [processFrame, hr] at h
    exact (processBoxes_mem cv cfg _ _ _ bs st.pc rec h).1

theorem processFrame_glitch_none (cv : CV) (cfg : Config) (st : MainState)
    (r : YResult) (hr : r.orig_img = none) :
    ∀ rec ∈ (processFrame cv cfg st r).2, rec.glitch = 0 := by
  intro rec h
  rcases hb : r.boxes with _ | bs
  · simp [processFrame, hb] at h
  · simp only [processFrame, hb, hr] at h
    have := (processBoxes_mem cv cfg _ _ _ bs st.pc rec h).2
    rwa [pyRound_zero] at this

theorem runFrames_fst_t (cv : CV) (cfg : Config) :
    ∀ (frames : List YResult) (st : MainState),
      (runFrames cv cfg st frames).1.t =
        st.t + frames.length * (1 / cfg.fps) := by
  intro frames
  induction frames with
  | nil => intro st; simp [runFrames]
  | cons r rs ih =>
    intro st
    simp only [runFrames]
    rw [ih, processFrame_fst_t]
    push_cast [List.length_cons]
    ring

theorem runFrames_mem_t_lb (cv : CV) (cfg : Config) (hfps : 0 < cfg.fps) :
    ∀ (frames : List YResult) (st : MainState) (rec : Rec),
      rec ∈ (runFrames cv cfg st frames).2 →
      pyRound (st.t + 1 / cfg.fps) 3 ≤ rec.t := by
  intro frames
  induction frames with
  | nil => intro st rec h; simp [runFrames] at h
  | cons r rs ih =>
    intro st rec h
    simp only [runFrames, List.mem_append] at h
    rcases h with h | h
    · exact le_of_eq (processFrame_mem_t cv cfg st r rec h).symm
    · have hlb := ih (processFrame cv cfg st r).1 rec h
      rw [processFrame_fst_t] at hlb
      refine le_trans (pyRound_mono 3 ?_) hlb
      have hpos : 0 < 1 / cfg.fps := by positivity
      linarith

theorem chain_t_of_const (l : List Rec) (c : ℝ) (h : ∀ a ∈ l, a.t = c) :
    List.Chain' (fun a b : Rec => a.t ≤ b.t) l := by
  induction l with
  | nil => simp
  | cons a l ih =>
    rw [List.chain'_cons']
    refine ⟨?_, ih fun x hx => h x (by simp [hx])⟩
    intro b hb
    have hbmem : b ∈ l := mem_of_mem_headQ hb
    rw [h a (by simp), h b (by simp [hbmem])]

theorem runFrames_chain (cv : CV) (cfg : Config) (hfps : 0 < cfg.fps) :
    ∀ (frames : List YResult) (st : MainState),
      List.Chain' (fun a b : Rec => a.t ≤ b.t)
        (runFrames cv cfg st frames).2 := by
  intro frames
  induction frames with
  | nil => intro st; simp [runFrames]
  | cons r rs ih =>
    intro st
    simp only [runFrames]
    refine List.Chain'.append
      (chain_t_of_const _ _ (processFrame_mem_t cv cfg st r)) (ih _) ?_
    intro x hx y hy
    have hxm : x ∈ (processFrame cv cfg st r).2 := mem_of_mem_getLastQ hx
    have hym : y ∈ (runFrames cv cfg (processFrame cv cfg st r).1 rs).2 :=
      mem_of_mem_headQ hy
    have hxt := processFrame_mem_t cv cfg st r x hxm
    have hyt := runFrames_mem_t_lb cv cfg hfps rs _ y hym
    rw [processFrame_fst_t] at hyt
    rw [hxt]
    refine le_trans (pyRound_mono 3 ?_) hyt
    have hpos : 0 < 1 / cfg.fps := by positivity
    linarith

/-! ### Claim theorems -/

/-- C2: the distance feature is `max(0.05, 1 - area/(W*H))` with
`area = max(1, (x2-x1)*(y2-y1))`; for any box (including degenerate
zero-area boxes, thanks to the `max(1, .)` floor) it lies in `[0.05, 1]`,
and a box exactly covering the full frame yields `0.05`, not `0`. -/
theorem distance_spec (x1 y1 x2 y2 cx cy : ℝ) (W H : ℕ)
    (hW : 0 < W) (hH : 0 < H) :
    1 ≤ max 1 ((x2 - x1) * (y2 - y1)) ∧
    (to_polar cx cy (max 1 ((x2 - x1) * (y2 - y1))) W H).2.2 =
      max 0.05 (1 - max 1 ((x2 - x1) * (y2 - y1)) / ((W : ℝ) * H)) ∧
    0.05 ≤ (to_polar cx cy (max 1 ((x2 - x1) * (y2 - y1))) W H).2.2 ∧
    (to_polar cx cy (max 1 ((x2 - x1) * (y2 - y1))) W H).2.2 ≤ 1 ∧
    (to_polar cx cy (max 1 (((W : ℝ) - 0) * ((H : ℝ) - 0))) W H).2.2 = 0.05 := by
  have harea : (0 : ℝ) ≤ max 1 ((x2 - x1) * (y2 - y1)) :=
    le_trans zero_le_one (le_max_left _ _)
  have hWH : (0 : ℝ) ≤ (W : ℝ) * H := by positivity
  refine ⟨le_max_left _ _, rfl, le_max_left _ _, ?_, ?_⟩
  · refine max_le (by norm_num) ?_
    have := div_nonneg harea hWH
    linarith
  · have hWH1 : (1 : ℝ) ≤ (W : ℝ) * H := by
      have h1 : (1 : ℝ) ≤ (W : ℝ) := by exact_mod_cast hW
      have h2 : (1 : ℝ) ≤ (H : ℝ) := by exact_mod_cast hH
      nlinarith
    have hWHpos : (0 : ℝ) < (W : ℝ) * H := by linarith
    simp only [to_polar, sub_zero]
    rw [max_eq_right hWH1, div_self (ne_of_gt hWHpos), sub_self]
    rw [max_eq_left (by norm_num)]

/-- C2 witness at `W = H = 2` and the box `(0,0,3,3)`. -/
theorem distance_spec_witness :
    0.05 ≤ (to_polar 1.5 1.5 (max 1 ((3 - 0) * (3 - 0))) 2 2).2.2 ∧
    (to_polar 1.5 1.5 (max 1 ((((2 : ℕ) : ℝ) - 0) * (((2 : ℕ) : ℝ) - 0)))
      2 2).2.2 = 0.05 :=
  ⟨(distance_spec 0 0 3 3 1.5 1.5 2 2 (by norm_num) (by norm_num)).2.2.1,
   (distance_spec 0 0 3 3 1.5 1.5 2 2 (by norm_num) (by norm_num)).2.2.2.2⟩

/-- C3: azimuth is the linear map of `cx/W` onto `[-180, 180]`, elevation is
the inverted linear map of `cy/H` onto `[-30, 30]` (top of frame positive),
and both stay inside those ranges for any in-frame center. -/
theorem angles_spec (cx cy area : ℝ) (W H : ℕ) (hW : 0 < W) (hH : 0 < H)
    (hcx0 : 0 ≤ cx) (hcxW : cx ≤ W) (hcy0 : 0 ≤ cy) (hcyH : cy ≤ H) :
    (to_polar cx cy area W H).1 = (cx / W) * 360 - 180 ∧
    (to_polar cx cy area W H).2.1 = (1 - cy / H) * 60 - 30 ∧
    -180 ≤ (to_polar cx cy area W H).1 ∧
    (to_polar cx cy area W H).1 ≤ 180 ∧
    -30 ≤ (to_polar cx cy area W H).2.1 ∧
    (to_polar cx cy area W H).2.1 ≤ 30 ∧
    (to_polar cx 0 area W H).2.1 = 30 := by
  have hWpos : (0 : ℝ) < (W : ℝ) := by exact_mod_cast hW
  have hHpos : (0 : ℝ) < (H : ℝ) := by exact_mod_cast hH
  have hx0 : 0 ≤ cx / W := div_nonneg hcx0 (le_of_lt hWpos)
  have hx1 : cx / W ≤ 1 := (div_le_one hWpos).mpr hcxW
  have hy0 : 0 ≤ cy / H := div_nonneg hcy0 (le_of_lt hHpos)
  have hy1 : cy / H ≤ 1 := (div_le_one hHpos).mpr hcyH
  refine ⟨rfl, rfl, ?_, ?_, ?_, ?_, ?_⟩
  · simp only [to_polar]; linarith
  · simp only [to_polar]; linarith
  · simp only [to_polar]; linarith
  · simp only [to_polar]; linarith
  · simp only [to_polar, zero_div]; norm_num

/-- C3 witness at the top-left corner of a 2×2 frame. -/
theorem angles_spec_witness :
    -180 ≤ (to_polar 0 0 1 2 2).1 ∧ (to_polar 0 0 1 2 2).2.1 = 30 :=
  ⟨(angles_spec 0 0 1 2 2 (by norm_num) (by norm_num) (by norm_num)
      (by norm_num) (by norm_num) (by norm_num)).2.2.1,
   (angles_spec 0 0 1 2 2 (by norm_num) (by norm_num) (by norm_num)
      (by norm_num) (by norm_num) (by norm_num)).2.2.2.2.2.2⟩

/-- C6: zero-pixel inputs yield the defined neutral values: `hsv_stats`
returns `(0,0,0)` on an empty crop, `edge_density` and `shape_magic` return
`0.0`, and when a frame image is absent every record of that frame carries
glitch `0.0`. -/
theorem empty_input_neutral (cv : CV) :
    hsv_stats cv [] = (0, 0, 0) ∧ edge_density cv [] = 0 ∧
    shape_magic cv [] = 0 ∧
    ∀ (cfg : Config) (st : MainState) (r : YResult), r.orig_img = none →
      ((processFrame cv cfg st r).2).map Rec.glitch =
        List.replicate ((processFrame cv cfg st r).2).length 0 := by
  refine ⟨by simp [hsv_stats], by simp [edge_density], by simp [shape_magic],
    ?_⟩
  intro cfg st r hr
  exact list_map_eq_replicate _ _ _ (processFrame_glitch_none cv cfg st r hr)

/-- C6 witness: a synthetic frame with no decoded image. -/
theorem empty_input_neutral_witness :
    ((processFrame cvId cfg1 initState res1).2).map Rec.glitch =
      List.replicate ((processFrame cvId cfg1 initState res1).2).length 0 :=
  (empty_input_neutral cvId).2.2.2 cfg1 initState res1 rfl

/-- C7: a detection without a track identity is skipped: the per-detection
step emits nothing and leaves the track state untouched, and the number of
records a frame emits equals the number of its detections that carry an
identity. -/
theorem untracked_detection_skipped (cv : CV) (cfg : Config) :
    (∀ (gval t : ℝ) (frame : Option BGRImage) (pc : ℤ → Option (ℝ × ℝ))
        (b : YBox), b.id = none →
        processBox cv cfg gval t frame pc b = (none, pc)) ∧
    (∀ (st : MainState) (r : YResult),
        ((processFrame cv cfg st r).2).length =
          ((r.boxes.getD []).filter fun b => b.id.isSome).length) := by
  constructor
  · intro gval t frame pc b hb
    exact processBox_id_none cv cfg gval t frame pc b hb
  · intro st r
    rcases hr : r.boxes with _ | bs
    · simp [processFrame, hr]
    · simp only [processFrame, hr, Option.getD_some]
      exact processBoxes_length cv cfg _ _ _ bs st.pc

/-- C7 witness: an id-less detection at a concrete state. -/
theorem untracked_detection_skipped_witness :
    processBox cvId cfg1 0 0 none (fun _ => none) boxNoId =
      (none, fun _ => none) :=
  (untracked_detection_skipped cvId cfg1).1 0 0 none (fun _ => none) boxNoId
    rfl

/-- C9: the output sink is closed only when the frame loop exhausts the
source normally; the source has no `try/finally` or `with` around the loop
(vid2score.py lines 149-224), so an exception raised during iteration
propagates past `out.close()` and the file is left open — contradicting the
requirement that it be released on all exit paths. -/
theorem output_close_paths :
    (main cvId cfg1 [res1] none).closed = true ∧
    (main cvId cfg1 [res1] (some 0)).closed = false := by
  constructor <;> simp [main]

/-- C4 counterexample: `glitch_meter`, unlike the other estimators, has no
emptiness guard; on a zero-pixel image the mean of the (empty) Sobel response
has no numeric value, so no value in `[0,1]` is returned. -/
theorem glitch_meter_empty_cex : glitch_meter cvId [] = none := by
  simp [glitch_meter, npMeanOpt, cvId]

theorem mean255_bounds (l : List ℝ) (h0 : ∀ x ∈ l, 0 ≤ x)
    (h255 : ∀ x ∈ l, x ≤ 255) : 0 ≤ npMean l / 255 ∧ npMean l / 255 ≤ 1 := by
  refine ⟨div_nonneg (npMean_nonneg l h0) (by norm_num), ?_⟩
  rw [div_le_one (by norm_num : (0:ℝ) < 255)]
  exact npMean_le_of_le l 255 (by norm_num) h255

/-- C4 (amended): the guarded estimators `hsv_stats` (saturation and value),
`edge_density` and `shape_magic` are defined and inside `[0,1]` for every
input including the empty one; `glitch_meter` is defined and inside `[0,1]`
for every nonempty input (on a zero-pixel image it has no value, see the
counterexample — the pipeline itself substitutes `0.0` only for an absent
frame). -/
theorem estimators_bounded (cv : CV) :
    (∀ gray : GrayImage, gray ≠ [] →
        ∃ g, glitch_meter cv gray = some g ∧ 0 ≤ g ∧ g ≤ 1) ∧
    (∀ roi : BGRImage,
        0 ≤ (hsv_stats cv roi).2.1 ∧ (hsv_stats cv roi).2.1 ≤ 1 ∧
        0 ≤ (hsv_stats cv roi).2.2 ∧ (hsv_stats cv roi).2.2 ≤ 1) ∧
    (∀ groi : GrayImage,
        0 ≤ edge_density cv groi ∧ edge_density cv groi ≤ 1) ∧
    (∀ roi : BGRImage, 0 ≤ shape_magic cv roi ∧ shape_magic cv roi ≤ 1) := by
  refine ⟨?_, ?_, ?_, ?_⟩
  · intro gray hg
    have hne : (cv.sobel gray 1 0 3).map (fun x => |x|) ≠ [] := by
      intro h0
      apply hg
      have hlen : ((cv.sobel gray 1 0 3).map (fun x => |x|)).length = 0 := by
        rw [h0]; rfl
      rw [List.length_map, cv.sobel_len] at hlen
      exact List.length_eq_zero.mp hlen
    refine ⟨npClip (npMean ((cv.sobel gray 1 0 3).map (fun x => |x|)) / 64) 0 1,
      ?_, npClip01_nonneg _, npClip01_le_one _⟩
    simp [glitch_meter, npMeanOpt, hne]
  · intro roi
    rcases eq_or_ne roi [] with h | h
    · simp [hsv_stats, h]
    · simp only [hsv_stats, if_neg h]
      have hsat := mean255_bounds ((cv.cvtHSV roi).map fun p => ((p.2.1 : ℕ) : ℝ))
        (by intro x hx; simp only [List.mem_map] at hx
            obtain ⟨p, _, rfl⟩ := hx; positivity)
        (by intro x hx; simp only [List.mem_map] at hx
            obtain ⟨p, _, rfl⟩ := hx
            exact_mod_cast Nat.cast_le.mpr (Nat.le_of_lt_succ p.2.1.isLt))
      have hval := mean255_bounds ((cv.cvtHSV roi).map fun p => ((p.2.2 : ℕ) : ℝ))
        (by intro x hx; simp only [List.mem_map] at hx
            obtain ⟨p, _, rfl⟩ := hx; positivity)
        (by intro x hx; simp only [List.mem_map] at hx
            obtain ⟨p, _, rfl⟩ := hx
            exact_mod_cast Nat.cast_le.mpr (Nat.le_of_lt_succ p.2.2.isLt))
      exact ⟨hsat.1, hsat.2, hval.1, hval.2⟩
  · intro groi
    rcases eq_or_ne groi [] with h | h
    · simp [edge_density, h]
    · simp only [edge_density, if_neg h]
      exact ⟨npClip01_nonneg _, npClip01_le_one _⟩
  · intro roi
    rcases eq_or_ne roi [] with h | h
    · simp [shape_magic, h]
    · simp only [shape_magic, if_neg h]
      rcases hm : pyMaxBy cv.contourArea
          (cv.findContours (cv.canny (cv.cvtGray roi) 50 150)) with _ | cnt
      · norm_num
      · rcases eq_or_ne (cv.arcLength cnt true) 0 with hp | hp
        · simp [hp]
        · simp only [if_neg hp]
          exact ⟨npClip01_nonneg _, npClip01_le_one _⟩

/-- C4 witness: a one-pixel grayscale image. -/
theorem estimators_bounded_witness :
    ∃ g, glitch_meter cvId [0] = some g ∧ 0 ≤ g ∧ g ≤ 1 :=
  (estimators_bounded cvId).1 [0] (List.cons_ne_nil 0 [])

/-- C5: on a nonempty crop `shape_magic` follows exactly the source's ordered
steps: Canny edges of the grayscale crop at thresholds 50/150, external
contours (score `0` when there are none), the contour of maximum enclosed
area, score `0` when its perimeter is zero, and otherwise the compactness
`4·π·area/peri²` times mean brightness (value channel over 255) times one
minus the hue standard deviation over 180, clipped to `[0,1]`. -/
theorem shape_magic_spec (cv : CV) (roi : BGRImage) (hroi : roi ≠ []) :
    (cv.findContours (cv.canny (cv.cvtGray roi) 50 150) = [] →
        shape_magic cv roi = 0) ∧
    (∀ cnt, pyMaxBy cv.contourArea
        (cv.findContours (cv.canny (cv.cvtGray roi) 50 150)) = some cnt →
      (∀ c ∈ cv.findContours (cv.canny (cv.cvtGray roi) 50 150),
          cv.contourArea c ≤ cv.contourArea cnt) ∧
      (cv.arcLength cnt true = 0 → shape_magic cv roi = 0) ∧
      (cv.arcLength cnt true ≠ 0 →
        shape_magic cv roi =
          npClip (4 * Real.pi * cv.contourArea cnt /
              (cv.arcLength cnt true * cv.arcLength cnt true) *
              (npMean ((cv.cvtHSV roi).map fun p => ((p.2.2 : ℕ) : ℝ)) / 255) *
              (1 - npStd ((cv.cvtHSV roi).map fun p => ((p.1 : ℕ) : ℝ)) / 180))
            0 1)) := by
  constructor
  · intro hc
    simp only [shape_magic, if_neg hroi]
    rw [hc]
    simp [pyMaxBy]
  · intro cnt hm
    refine ⟨pyMaxBy_le _ _ _ hm, ?_, ?_⟩
    · intro hp
      simp only [shape_magic, if_neg hroi]
      rw [hm]
      simp [hp]
    · intro hp
      simp only [shape_magic, if_neg hroi]
      rw [hm]
      simp only [if_neg hp]

/-- C5 witness: a one-pixel crop under the concrete `cvId` primitives, whose
edge map has no contours. -/
theorem shape_magic_spec_witness :
    shape_magic cvId [((0 : Fin 256), (0 : Fin 256), (0 : Fin 256))] = 0 :=
  (shape_magic_spec cvId [((0 : Fin 256), (0 : Fin 256), (0 : Fin 256))]
    (List.cons_ne_nil _ _)).1 rfl

/-- C8: over a run the emitted records carry non-decreasing timestamps, and
within one frame the records follow the order in which the tracker supplied
the detections (their object ids are exactly the detections' ids, in
order). -/
theorem emission_order (cv : CV) (cfg : Config) (hfps : 0 < cfg.fps) :
    (∀ frames : List YResult,
        List.Chain' (fun a b : Rec => a.t ≤ b.t)
          (runFrames cv cfg initState frames).2) ∧
    (∀ (st : MainState) (r : YResult),
        ((processFrame cv cfg st r).2).map Rec.oid =
          (r.boxes.getD []).filterMap YBox.id) := by
  constructor
  · intro frames
    exact runFrames_chain cv cfg hfps frames initState
  · intro st r
    rcases hr : r.boxes with _ | bs
    · simp [processFrame, hr]
    · simp only [processFrame, hr, Option.getD_some]
      exact processBoxes_map_oid cv cfg _ _ _ bs st.pc

/-- C8 witness: the two-frame synthetic run at 10 fps. -/
theorem emission_order_witness :
    List.Chain' (fun a b : Rec => a.t ≤ b.t)
      (runFrames cvId cfg1 initState [res1, res2]).2 :=
  (emission_order cvId cfg1 (by norm_num [cfg1])).1 [res1, res2]

/-- C10 counterexample: at 2001 fps the first frame's records carry
timestamp `round(1/2001, 3) = 0.0`, refuting the claim that the first
frame's rounded timestamp is never `0.0`. -/
theorem first_timestamp_zero_cex :
    ((runFrames cvId ⟨2001, 100, 100, "camA"⟩ initState [res1]).2).map
      Rec.t = [0] := by
  have hfl : ⌊(1000 : ℝ) / 2001⌋ = 0 := by
    rw [Int.floor_eq_zero_iff]
    constructor <;> norm_num
  have hfr : Int.fract ((1000 : ℝ) / 2001) = 1000 / 2001 := by
    rw [Int.fract, hfl]
    norm_num
  have hre : rndHalfEven ((1000 : ℝ) / 2001) = 0 := by
    simp only [rndHalfEven, hfr, hfl]
    rw [if_pos (by norm_num : (1000 : ℝ) / 2001 < 1 / 2)]
  have hpr : pyRound (initState.t + 1 / (2001 : ℝ)) 3 = 0 := by
    have hx : (initState.t + 1 / (2001 : ℝ)) * 10 ^ 3 = 1000 / 2001 := by
      simp [initState]
      norm_num
    rw [pyRound, hx, hre]
    norm_num
  have hlen : ((processFrame cvId ⟨2001, 100, 100, "camA"⟩ initState
      res1).2).length = 1 := by
    simp only [processFrame, res1]
    rw [processBoxes_length]
    simp [box1]
  simp only [runFrames, List.append_nil]
  rw [list_map_eq_replicate Rec.t (pyRound (initState.t + 1 / (2001 : ℝ)) 3) _
    (processFrame_mem_t cvId ⟨2001, 100, 100, "camA"⟩ initState res1)]
  rw [hlen, hpr]
  rfl

/-- C10 (amended): the timestamp accumulator starts at `0.0` and is advanced
by `1/fps` for every yielded frame — whether or not that frame produces
records — before any record of the frame is built, so after `n` frames it
equals `n·(1/fps)` exactly (in real arithmetic, before rounding) and every
record of the `n`-th yielded frame (counting from 1) carries
`round(n·(1/fps), 3)`.  The first frame's rounded timestamp `round(1/fps, 3)`
is nonzero whenever `0 < fps < 2000`; for larger rates it can round to `0.0`
(see the counterexample at 2001 fps). -/
theorem timestamp_spec (cv : CV) (cfg : Config) :
    (∀ (st : MainState) (frames : List YResult),
        (runFrames cv cfg st frames).1.t =
          st.t + frames.length * (1 / cfg.fps)) ∧
    (∀ (frames1 : List YResult) (r : YResult),
        ∀ rec ∈ (processFrame cv cfg (runFrames cv cfg initState frames1).1
            r).2,
          rec.t = pyRound ((frames1.length + 1) * (1 / cfg.fps)) 3) ∧
    (0 < cfg.fps → cfg.fps < 2000 → 0 < pyRound (1 / cfg.fps) 3) := by
  refine ⟨fun st frames => runFrames_fst_t cv cfg frames st, ?_, ?_⟩
  · intro frames1 r rec h
    have ht := processFrame_mem_t cv cfg _ r rec h
    rw [runFrames_fst_t] at ht
    rw [ht]
    congr 1
    simp only [initState]
    ring
  · intro h0 h2000
    have hy : (1 : ℝ) / 2 < 1 / cfg.fps * 10 ^ 3 := by
      have hx : 1 / cfg.fps * 10 ^ 3 = 1000 / cfg.fps := by ring
      rw [hx, lt_div_iff₀ h0]
      linarith
    have h1 := rndHalfEven_one_le hy
    rw [pyRound]
    apply div_pos
    · exact_mod_cast lt_of_lt_of_le zero_lt_one (by exact_mod_cast h1)
    · positivity

/-- C10 witness at 10 fps. -/
theorem timestamp_spec_witness : 0 < pyRound (1 / (10 : ℝ)) 3 :=
  (timestamp_spec cvId cfg1).2.2 (by norm_num [cfg1]) (by norm_num [cfg1])

/-- C1: speed is `0.0` on a track's first appearance, equals
`sqrt(((cx-px)/W)² + ((cy-py)/H)²)·fps` when a previous center exists, is
`0.0` for a stationary track, and the per-detection step stores the current
center in the track state while the record's speed is computed from the
previous state; concretely, a track whose center moves by `(W/2, 0)` pixels
between two consecutive frames at 10 fps reports speed `5.0`. -/
theorem speed_spec :
    (∀ (cfg : Config) (pc : ℤ → Option (ℝ × ℝ)) (oid : ℤ) (cx cy : ℝ),
      (pc oid = none → speedOf cfg.fps cfg.W cfg.H pc oid cx cy = 0) ∧
      (∀ px py, pc oid = some (px, py) →
        speedOf cfg.fps cfg.W cfg.H pc oid cx cy =
          Real.sqrt (((cx - px) / cfg.W) ^ 2 + ((cy - py) / cfg.H) ^ 2) *
            cfg.fps) ∧
      (pc oid = some (cx, cy) → speedOf cfg.fps cfg.W cfg.H pc oid cx cy = 0) ∧
      (∀ (cv : CV) (gval t : ℝ) (frame : Option BGRImage) (b : YBox),
        b.id = some oid →
        (processBox cv cfg gval t frame pc b).2 oid =
          some ((b.x1 + b.x2) / 2, (b.y1 + b.y2) / 2) ∧
        ∃ rec, (processBox cv cfg gval t frame pc b).1 = some rec ∧
          rec.spd = pyRound (speedOf cfg.fps cfg.W cfg.H pc oid
            ((b.x1 + b.x2) / 2) ((b.y1 + b.y2) / 2)) 3)) ∧
    ((runFrames cvId cfg1 initState [res1, res2]).2).map Rec.spd = [0, 5] := by
  constructor
  · intro cfg pc oid cx cy
    refine ⟨?_, ?_, ?_, ?_⟩
    · intro h; simp [speedOf, h]
    · intro px py h
      simp only [speedOf, h]
      rw [pow_two, pow_two]
    · intro h; simp [speedOf, h]
    · intro cv gval t frame b hb
      constructor
      · rw [processBox_id_some_snd cv cfg gval t frame pc b oid hb]
        simp
      · obtain ⟨rec, hrec, _, _, _, hspd⟩ :=
          processBox_id_some_fst cv cfg gval t frame pc b oid hb
        exact ⟨rec, hrec, hspd⟩
  · simp [runFrames, processFrame, processBoxes, processBox, res1, res2, box1,
      box2, initState, cfg1, speedOf]
    refine ⟨pyRound_zero 3, ?_⟩
    rw [show ((((70 : ℝ) + 80) / 2 - ((20 : ℝ) + 30) / 2) / 100) = (1 / 2 : ℝ)
      by norm_num]
    rw [Real.sqrt_mul_self (by norm_num : (0 : ℝ) ≤ 1 / 2)]
    rw [show (1 / 2 : ℝ) * 10 = ((5 : ℤ) : ℝ) by norm_num, pyRound_intCast]
    norm_num

/-- C1 witness: first-appearance and stationary speeds at concrete state. -/
theorem speed_spec_witness :
    speedOf cfg1.fps cfg1.W cfg1.H (fun _ => none) 1 25 50 = 0 ∧
    speedOf cfg1.fps cfg1.W cfg1.H (fun _ => some (25, 50)) 1 25 50 = 0 :=
  ⟨(speed_spec.1 cfg1 (fun _ => none) 1 25 50).1 rfl,
   (speed_spec.1 cfg1 (fun _ => some (25, 50)) 1 25 50).2.2.1 rfl⟩
